import Mathlib

/-!
Verification of the `pyintervals` interval library
(`src/pyintervals/interval.py`) against its specification.

The library provides an immutable interval value type over a totally
ordered boundary type, with a numeric payload `value`, a validating
constructor (`__post_init__`), and the predicates `is_degenerate`,
`duration`, `contains_point`, `overlaps` and `contains`.

We embed the boundary type as an arbitrary `LinearOrder` and the numeric
payload as `ℚ`.  Each Python function becomes an executable Lean
definition with the same name and the same branch structure; the fallible
constructor becomes `mkInterval`, returning `Except`.
-/

namespace Pyintervals

/-- The interval record: `start`, `end` and the numeric payload `value`
(Python: `@dataclass(frozen=True, order=True) class Interval`). -/
structure Interval (α : Type) where
  start : α
  «end» : α
  value : ℚ
deriving DecidableEq, Repr

/-- The single error kind raised at construction time
(Python raises an error when `start > end`). -/
inductive IntervalError where
  | invalidInterval
deriving DecidableEq, Repr

variable {α : Type} [LinearOrder α]

/-- The validating constructor: `Interval.__post_init__` raises exactly when
`self.start > self.end`, otherwise the dataclass stores the fields as given. -/
def mkInterval (start «end» : α) (value : ℚ) :
    Except IntervalError (Interval α) :=
  if start > «end» then Except.error IntervalError.invalidInterval
  else Except.ok ⟨start, «end», value⟩

/-- Python: `def is_degenerate(self) -> bool: return self.start == self.end`. -/
def is_degenerate (i : Interval α) : Bool :=
  decide (i.start = i.«end»)

/-- Python: `def duration(self): return self.end - self.start`. -/
def duration [Sub α] (i : Interval α) : α :=
  i.«end» - i.start

/-- Python: `_get_ordered` returns the pair ordered by `start`
(`(interval, other)` if `interval.start <= other.start` else swapped). -/
def _get_ordered (interval other : Interval α) :
    Interval α × Interval α :=
  if interval.start ≤ other.start then (interval, other) else (other, interval)

/-- Python: `contains_point(interval, point)` — for a degenerate interval,
`interval.start == point`; otherwise `interval.start <= point < interval.end`. -/
def contains_point (interval : Interval α) (point : α) : Bool :=
  if is_degenerate interval then decide (interval.start = point)
  else decide (interval.start ≤ point ∧ point < interval.«end»)

/-- Python: `overlaps(interval, other)` — four-way case split on degeneracy,
final branch orders the pair by start and tests `second.start < first.end`. -/
def overlaps (interval other : Interval α) : Bool :=
  if is_degenerate interval && is_degenerate other then
    contains_point interval other.start
  else if is_degenerate interval then
    contains_point other interval.start
  else if is_degenerate other then
    contains_point interval other.start
  else
    let p := _get_ordered interval other
    decide (p.2.start < p.1.«end»)

/-- Python: `contains(interval, other)` — delegates to `overlaps` when either
interval is degenerate, otherwise `interval.start <= other.start and
interval.end >= other.end`. -/
def contains (interval other : Interval α) : Bool :=
  if is_degenerate interval || is_degenerate other then
    overlaps interval other
  else
    decide (interval.start ≤ other.start ∧ interval.«end» ≥ other.«end»)

/-! ## Helper lemmas -/

lemma is_degenerate_iff (i : Interval α) :
    is_degenerate i = true ↔ i.start = i.«end» := by
  simp [is_degenerate]

lemma contains_point_iff (i : Interval α) (p : α) :
    contains_point i p = true ↔
      (if i.start = i.«end» then i.start = p
       else i.start ≤ p ∧ p < i.«end») := by
  by_cases h : i.start = i.«end» <;>
    simp [contains_point, is_degenerate, h]

lemma contains_point_deg (i : Interval α) (p : α) (h : i.start = i.«end») :
    contains_point i p = true ↔ i.start = p := by
  simp [contains_point_iff, h]

lemma contains_point_nondeg (i : Interval α) (p : α) (h : ¬ i.start = i.«end») :
    contains_point i p = true ↔ i.start ≤ p ∧ p < i.«end» := by
  simp [contains_point_iff, h]

lemma overlaps_deg_deg (a b : Interval α)
    (ha : a.start = a.«end») (hb : b.start = b.«end») :
    overlaps a b = contains_point a b.start := by
  simp [overlaps, is_degenerate, ha, hb]

lemma overlaps_deg_nondeg (a b : Interval α)
    (ha : a.start = a.«end») (hb : ¬ b.start = b.«end») :
    overlaps a b = contains_point b a.start := by
  simp [overlaps, is_degenerate, ha, hb]

lemma overlaps_nondeg_deg (a b : Interval α)
    (ha : ¬ a.start = a.«end») (hb : b.start = b.«end») :
    overlaps a b = contains_point a b.start := by
  simp [overlaps, is_degenerate, ha, hb]

lemma overlaps_nondeg_le (a b : Interval α)
    (ha : ¬ a.start = a.«end») (hb : ¬ b.start = b.«end»)
    (hle : a.start ≤ b.start) :
    overlaps a b = decide (b.start < a.«end») := by
  simp [overlaps, is_degenerate, ha, hb, _get_ordered, hle]

lemma overlaps_nondeg_gt (a b : Interval α)
    (ha : ¬ a.start = a.«end») (hb : ¬ b.start = b.«end»)
    (hgt : ¬ a.start ≤ b.start) :
    overlaps a b = decide (a.start < b.«end») := by
  simp [overlaps, is_degenerate, ha, hb, _get_ordered, hgt]

lemma contains_either_deg (a b : Interval α)
    (h : a.start = a.«end» ∨ b.start = b.«end») :
    contains a b = overlaps a b := by
  rcases h with h | h <;> simp [contains, is_degenerate, h]

lemma contains_nondeg (a b : Interval α)
    (ha : ¬ a.start = a.«end») (hb : ¬ b.start = b.«end») :
    contains a b = decide (a.start ≤ b.start ∧ a.«end» ≥ b.«end») := by
  simp [contains, is_degenerate, ha, hb]

lemma nondeg_start_lt (b : Interval α)
    (hb : b.start ≤ b.«end») (h : ¬ b.start = b.«end») :
    b.start < b.«end» :=
  lt_of_le_of_ne hb h

/-- Concrete integer intervals `I(a, b)` with the default payload `0`,
matching the spec's `I(a,b)` notation in §8. -/
def Iz (a b : ℤ) : Interval ℤ := ⟨a, b, 0⟩

/-! ## Claims -/

/-- C2: for all `start > end` under the boundary order, construction fails
with the invalid-interval error; for all `start <= end`, construction
succeeds and the stored `start`, `end` and `value` fields equal the
constructor inputs exactly, with no other validation performed. -/
theorem construction_invariant (s e : α) (v : ℚ) :
    (s > e → mkInterval s e v = Except.error IntervalError.invalidInterval) ∧
    (s ≤ e → mkInterval s e v = Except.ok ⟨s, e, v⟩) := by
  constructor
  · intro h
    simp [mkInterval, h]
  · intro h
    simp [mkInterval, not_lt.mpr h]

/-- Witness for C2 at concrete inputs: `Interval(1, 0)` fails and
`Interval(0, 1, 5)` stores its fields exactly. -/
theorem construction_invariant_witness :
    mkInterval (1 : ℤ) 0 0 = Except.error IntervalError.invalidInterval ∧
    mkInterval (0 : ℤ) 1 5 = Except.ok ⟨0, 1, 5⟩ :=
  ⟨(construction_invariant 1 0 0).1 (by decide),
   (construction_invariant 0 1 5).2 (by decide)⟩

/-- C5: `overlaps` respects half-open boundaries:
`overlaps(I(0,5), I(5,10)) == false`, `overlaps(I(0,5), I(4,10)) == true`,
`overlaps(I(0,5), I(5,5)) == false` (degenerate point at the excluded end
boundary), and `overlaps(I(0,5), I(0,0)) == true` (degenerate point at the
included start boundary). -/
theorem overlaps_half_open_boundary :
    overlaps (Iz 0 5) (Iz 5 10) = false ∧
    overlaps (Iz 0 5) (Iz 4 10) = true ∧
    overlaps (Iz 0 5) (Iz 5 5) = false ∧
    overlaps (Iz 0 5) (Iz 0 0) = true := by
  decide

/-- C6: `contains_point(interval, p)` returns `p == interval.start` when the
interval is degenerate, and `interval.start <= p < interval.end` otherwise;
it is a total function with no failure case. -/
theorem contains_point_semantics (i : Interval α) (p : α) :
    contains_point i p = true ↔
      (if is_degenerate i = true then p = i.start
       else i.start ≤ p ∧ p < i.«end») := by
  by_cases h : i.start = i.«end»
  · rw [if_pos ((is_degenerate_iff i).mpr h), contains_point_deg i p h]
    exact eq_comm
  · rw [if_neg (by simpa [is_degenerate_iff] using h),
      contains_point_nondeg i p h]

/-- C7: `contains` is reflexive — `contains(a, a) == true` for every
validly-constructed interval `a`, degenerate or not. -/
theorem contains_refl (a : Interval α) (h : a.start ≤ a.«end») :
    contains a a = true := by
  by_cases hd : a.start = a.«end» <;>
    simp [contains, overlaps, contains_point, is_degenerate, hd]

/-- Witness for C7 at concrete inputs: a non-degenerate and a degenerate
interval each contain themselves. -/
theorem contains_refl_witness :
    contains (Iz 0 5) (Iz 0 5) = true ∧ contains (Iz 3 3) (Iz 3 3) = true :=
  ⟨contains_refl (Iz 0 5) (by decide), contains_refl (Iz 3 3) (by decide)⟩

/-- C9: for every validly-constructed interval, `duration(I(a,b)) == b - a`
in the boundary domain's difference representation, and a degenerate
interval `I(p,p)` has the zero duration. -/
theorem duration_spec {β : Type} [LinearOrder β] [AddGroup β]
    (s e : β) (v : ℚ) (h : s ≤ e) :
    duration (⟨s, e, v⟩ : Interval β) = e - s ∧
    (s = e → duration (⟨s, e, v⟩ : Interval β) = 0) :=
  ⟨rfl, fun he => by simp [duration, he]⟩

/-- Witness for C9 at concrete inputs: `duration(I(2,5)) = 3` and
`duration(I(3,3)) = 0` over the integers. -/
theorem duration_spec_witness :
    duration (⟨2, 5, 0⟩ : Interval ℤ) = 5 - 2 ∧
    duration (⟨3, 3, 0⟩ : Interval ℤ) = 0 :=
  ⟨(duration_spec 2 5 0 (by decide)).1,
   (duration_spec 3 3 0 (by decide)).2 rfl⟩

/-- C3: `overlaps(a, b)` is true iff there exists a point `p` of the boundary
type with `contains_point(a, p)` and `contains_point(b, p)` both true, for
every two validly-constructed intervals. -/
theorem overlaps_iff_shared_point (a b : Interval α)
    (ha : a.start ≤ a.«end») (hb : b.start ≤ b.«end») :
    overlaps a b = true ↔
      ∃ p, contains_point a p = true ∧ contains_point b p = true := by
  by_cases hda : a.start = a.«end» <;> by_cases hdb : b.start = b.«end»
  · rw [overlaps_deg_deg a b hda hdb, contains_point_deg a b.start hda]
    constructor
    · intro h
      exact ⟨b.start, (contains_point_deg a b.start hda).mpr h,
        (contains_point_deg b b.start hdb).mpr rfl⟩
    · rintro ⟨p, h1, h2⟩
      rw [(contains_point_deg a p hda).mp h1]
      exact ((contains_point_deg b p hdb).mp h2).symm
  · rw [overlaps_deg_nondeg a b hda hdb]
    constructor
    · intro h
      exact ⟨a.start, (contains_point_deg a a.start hda).mpr rfl, h⟩
    · rintro ⟨p, h1, h2⟩
      rwa [(contains_point_deg a p hda).mp h1]
  · rw [overlaps_nondeg_deg a b hda hdb]
    constructor
    · intro h
      exact ⟨b.start, h, (contains_point_deg b b.start hdb).mpr rfl⟩
    · rintro ⟨p, h1, h2⟩
      rwa [(contains_point_deg b p hdb).mp h2]
  · by_cases hle : a.start ≤ b.start
    · rw [overlaps_nondeg_le a b hda hdb hle]
      simp only [decide_eq_true_eq]
      constructor
      · intro h
        exact ⟨b.start,
          (contains_point_nondeg a b.start hda).mpr ⟨hle, h⟩,
          (contains_point_nondeg b b.start hdb).mpr
            ⟨le_refl _, nondeg_start_lt b hb hdb⟩⟩
      · rintro ⟨p, h1, h2⟩
        exact lt_of_le_of_lt ((contains_point_nondeg b p hdb).mp h2).1
          ((contains_point_nondeg a p hda).mp h1).2
    · rw [overlaps_nondeg_gt a b hda hdb hle]
      simp only [decide_eq_true_eq]
      constructor
      · intro h
        exact ⟨a.start,
          (contains_point_nondeg a a.start hda).mpr
            ⟨le_refl _, nondeg_start_lt a ha hda⟩,
          (contains_point_nondeg b a.start hdb).mpr
            ⟨le_of_lt (lt_of_not_le hle), h⟩⟩
      · rintro ⟨p, h1, h2⟩
        exact lt_of_le_of_lt ((contains_point_nondeg a p hda).mp h1).1
          ((contains_point_nondeg b p hdb).mp h2).2

/-- Witness for C3 at concrete inputs: `overlaps(I(0,5), I(4,10))` is true
because the point `4` lies in both intervals. -/
theorem overlaps_iff_shared_point_witness :
    overlaps (Iz 0 5) (Iz 4 10) = true :=
  (overlaps_iff_shared_point (Iz 0 5) (Iz 4 10) (by decide) (by decide)).mpr
    ⟨4, by decide, by decide⟩

/-- C4: `overlaps` is symmetric — for every two validly-constructed
intervals `a` and `b`, `overlaps(a, b) == overlaps(b, a)`, independent of
argument order despite the internal ordering step on starts. -/
theorem overlaps_symm (a b : Interval α)
    (ha : a.start ≤ a.«end») (hb : b.start ≤ b.«end») :
    overlaps a b = overlaps b a := by
  by_cases hda : a.start = a.«end» <;> by_cases hdb : b.start = b.«end»
  · rw [overlaps_deg_deg a b hda hdb, overlaps_deg_deg b a hdb hda,
      contains_point, contains_point]
    simp only [is_degenerate, hda, hdb, decide_True, if_pos]
    exact decide_eq_decide.mpr eq_comm
  · rw [overlaps_deg_nondeg a b hda hdb, overlaps_nondeg_deg b a hdb hda]
  · rw [overlaps_nondeg_deg a b hda hdb, overlaps_deg_nondeg b a hdb hda]
  · rcases lt_trichotomy a.start b.start with h | h | h
    · rw [overlaps_nondeg_le a b hda hdb (le_of_lt h),
        overlaps_nondeg_gt b a hdb hda (not_le.mpr h)]
    · rw [overlaps_nondeg_le a b hda hdb (le_of_eq h),
        overlaps_nondeg_le b a hdb hda (le_of_eq h.symm)]
      have h1 : b.start < a.«end» := h ▸ nondeg_start_lt a ha hda
      have h2 : a.start < b.«end» := h.symm ▸ nondeg_start_lt b hb hdb
      simp [h1, h2]
    · rw [overlaps_nondeg_gt a b hda hdb (not_le.mpr h),
        overlaps_nondeg_le b a hdb hda (le_of_lt h)]

/-- Witness for C4 at concrete inputs, including the equal-starts tie case. -/
theorem overlaps_symm_witness :
    overlaps (Iz 0 5) (Iz 0 7) = overlaps (Iz 0 7) (Iz 0 5) :=
  overlaps_symm (Iz 0 5) (Iz 0 7) (by decide) (by decide)

/-- C10: containment implies overlap — for every two validly-constructed
intervals, if `contains(a, b)` is true then `overlaps(a, b)` is true. -/
theorem contains_implies_overlaps (a b : Interval α)
    (ha : a.start ≤ a.«end») (hb : b.start ≤ b.«end»)
    (h : contains a b = true) : overlaps a b = true := by
  by_cases hda : a.start = a.«end»
  · rwa [contains_either_deg a b (Or.inl hda)] at h
  · by_cases hdb : b.start = b.«end»
    · rwa [contains_either_deg a b (Or.inr hdb)] at h
    · rw [contains_nondeg a b hda hdb, decide_eq_true_eq] at h
      rw [overlaps_nondeg_le a b hda hdb h.1, decide_eq_true_eq]
      exact lt_of_lt_of_le (nondeg_start_lt b hb hdb) h.2

/-- Witness for C10 at concrete inputs: `I(0,10)` contains `I(2,4)`,
hence the two overlap. -/
theorem contains_implies_overlaps_witness :
    overlaps (Iz 0 10) (Iz 2 4) = true :=
  contains_implies_overlaps (Iz 0 10) (Iz 2 4) (by decide) (by decide)
    (by decide)

/-- C8: the `value` payload never influences the predicates — when two pairs
of intervals agree on `start` and `end` but differ arbitrarily in `value`,
`contains_point`, `overlaps` and `contains` return identical results. -/
theorem value_irrelevant (a b a' b' : Interval α)
    (h1 : a.start = a'.start) (h2 : a.«end» = a'.«end»)
    (h3 : b.start = b'.start) (h4 : b.«end» = b'.«end») :
    (∀ p, contains_point a p = contains_point a' p) ∧
    overlaps a b = overlaps a' b' ∧
    contains a b = contains a' b' := by
  obtain ⟨s₁, e₁, v₁⟩ := a
  obtain ⟨s₂, e₂, v₂⟩ := b
  obtain ⟨s₁', e₁', v₁'⟩ := a'
  obtain ⟨s₂', e₂', v₂'⟩ := b'
  simp only [Interval.mk.injEq] at h1 h2 h3 h4 ⊢
  subst h1; subst h2; subst h3; subst h4
  refine ⟨fun p => ?_, ?_, ?_⟩
  · simp [contains_point, is_degenerate]
  · simp only [overlaps, is_degenerate, _get_ordered]
    split_ifs <;> rfl
  · simp only [contains, overlaps, is_degenerate, _get_ordered]
    split_ifs <;> rfl

/-- Witness for C8 at concrete inputs: intervals sharing boundaries but
carrying different payloads give identical predicate results. -/
theorem value_irrelevant_witness :
    contains_point (⟨0, 5, 1⟩ : Interval ℤ) 4
      = contains_point (⟨0, 5, 7⟩ : Interval ℤ) 4 ∧
    overlaps (⟨0, 5, 1⟩ : Interval ℤ) ⟨3, 9, 2⟩
      = overlaps (⟨0, 5, 7⟩ : Interval ℤ) ⟨3, 9, -4⟩ ∧
    contains (⟨0, 5, 1⟩ : Interval ℤ) ⟨3, 9, 2⟩
      = contains (⟨0, 5, 7⟩ : Interval ℤ) ⟨3, 9, -4⟩ :=
  ⟨(value_irrelevant ⟨0, 5, 1⟩ ⟨3, 9, 2⟩ ⟨0, 5, 7⟩ ⟨3, 9, -4⟩
      rfl rfl rfl rfl).1 4,
   (value_irrelevant ⟨0, 5, 1⟩ ⟨3, 9, 2⟩ ⟨0, 5, 7⟩ ⟨3, 9, -4⟩
      rfl rfl rfl rfl).2.1,
   (value_irrelevant ⟨0, 5, 1⟩ ⟨3, 9, 2⟩ ⟨0, 5, 7⟩ ⟨3, 9, -4⟩
      rfl rfl rfl rfl).2.2⟩

/-- C1 counterexample: the claim states that `contains(a, b)` is true iff
every point of `b` is a point of `a` and in particular that
`contains(I(5,5), I(0,10)) == false`; on the code,
`contains(I(5,5), I(0,10))` delegates to `overlaps` and returns `true`,
even though the point `0` lies in `I(0,10)` but not in `I(5,5)`. -/
theorem contains_subset_counterexample :
    contains (Iz 5 5) (Iz 0 10) = true ∧
    contains_point (Iz 0 10) 0 = true ∧
    contains_point (Iz 5 5) 0 = false := by
  decide

/-- C1 amended: `contains(a, b)` is true iff every point of `b` is a point
of `a`, except when `a` is degenerate and `b` is non-degenerate; in that
case `contains` delegates to `overlaps` and is true iff `a`'s single point
lies in `b` (so `contains(I(5,5), I(0,10)) == true`). -/
theorem contains_iff_subset_amended (a b : Interval α)
    (ha : a.start ≤ a.«end») (hb : b.start ≤ b.«end») :
    contains a b = true ↔
      (if a.start = a.«end» ∧ ¬ b.start = b.«end»
       then contains_point b a.start = true
       else ∀ p, contains_point b p = true → contains_point a p = true) := by
  by_cases hda : a.start = a.«end» <;> by_cases hdb : b.start = b.«end»
  · rw [if_neg (by simp [hdb]),
      contains_either_deg a b (Or.inl hda), overlaps_deg_deg a b hda hdb,
      contains_point_deg a b.start hda]
    constructor
    · intro h p hp
      rw [(contains_point_deg b p hdb).mp hp] at h
      exact (contains_point_deg a p hda).mpr h
    · intro h
      exact (contains_point_deg a b.start hda).mp
        (h b.start ((contains_point_deg b b.start hdb).mpr rfl))
  · rw [if_pos ⟨hda, hdb⟩, contains_either_deg a b (Or.inl hda),
      overlaps_deg_nondeg a b hda hdb]
  · rw [if_neg (by simp [hdb]),
      contains_either_deg a b (Or.inr hdb), overlaps_nondeg_deg a b hda hdb]
    constructor
    · intro h p hp
      rw [← (contains_point_deg b p hdb).mp hp]
      exact h
    · intro h
      exact h b.start ((contains_point_deg b b.start hdb).mpr rfl)
  · rw [if_neg (by simp [hda]), contains_nondeg a b hda hdb,
      decide_eq_true_eq]
    constructor
    · intro h p hp
      obtain ⟨hp1, hp2⟩ := (contains_point_nondeg b p hdb).mp hp
      exact (contains_point_nondeg a p hda).mpr
        ⟨le_trans h.1 hp1, lt_of_lt_of_le hp2 h.2⟩
    · intro h
      constructor
      · exact ((contains_point_nondeg a b.start hda).mp
          (h b.start ((contains_point_nondeg b b.start hdb).mpr
            ⟨le_refl _, nondeg_start_lt b hb hdb⟩))).1
      · by_contra hc
        push_neg at hc
        have hmem : contains_point b (max a.«end» b.start) = true :=
          (contains_point_nondeg b _ hdb).mpr
            ⟨le_max_right _ _, max_lt hc (nondeg_start_lt b hb hdb)⟩
        have := ((contains_point_nondeg a _ hda).mp (h _ hmem)).2
        exact absurd this (not_lt.mpr (le_max_left _ _))

/-- Witness for the amended C1 in the exceptional branch at concrete
inputs: `a = I(5,5)` is degenerate, `b = I(0,10)` is not, and `contains`
is true because `a`'s point `5` lies in `b`. -/
theorem contains_iff_subset_amended_witness :
    contains (Iz 5 5) (Iz 0 10) = true := by
  have h := contains_iff_subset_amended (Iz 5 5) (Iz 0 10)
    (by decide) (by decide)
  rw [if_pos (by decide)] at h
  exact h.mpr (by decide)

end Pyintervals
